import Mathlib

/-!
# PingPals master coordinator — shallow embedding

This file embeds the coordination engine of the PingPals master
(`src/index.ts`, class `UptimeMaster`) in Lean 4 and proves the frozen
claims about it.

Modelling conventions:
* Epoch-millisecond timestamps are `Nat`.  JavaScript computes signed
  differences such as `currentTime - result.timestamp`; every comparison the
  code makes on such a difference (`< 300000`, `> 60000`, `> 300000`,
  `< 10000`) is monotone and holds for all negative values exactly when it
  holds for `0`, so truncated `Nat` subtraction gives the same branch in
  every case.
* `Map` objects are association lists in insertion order (JavaScript `Map`
  preserves insertion order; `set` on an existing key updates in place).
* ISO date strings `YYYY-MM-DD` produced by `getDateString` are abstracted
  as day numbers `timestamp / 86400000`; lexicographic comparison of ISO
  dates coincides with numeric comparison of day numbers.
* The floating-point ratio `successfulResults / totalValidResults >= 0.75`
  is modelled exactly in `ℚ` (`0.75` is exactly representable and small
  integer ratios do not round across the boundary).
-/

namespace PingPals

/-- `MIN_DOWNTIME_MS = 10000` — minimum 10 seconds to count as downtime. -/
def MIN_DOWNTIME_MS : Nat := 10000

/-- `CONSENSUS_THRESHOLD = 0.75` — 75% of slaves must agree. -/
def CONSENSUS_THRESHOLD : ℚ := 3 / 4

/-- `STALE_RESULT_THRESHOLD = 300000` — 5 minutes. -/
def STALE_RESULT_THRESHOLD : Nat := 300000

/-- `DAYS_TO_KEEP = 30` — number of days to keep in history. -/
def DAYS_TO_KEEP : Nat := 30

/-- `30 * 24 * 60 * 60 * 1000` milliseconds, from `updateUptimePercentages`. -/
def THIRTY_DAYS_MS : Nat := 30 * 24 * 60 * 60 * 1000

/-- `MonitorType` from `types.ts`. -/
inductive MonitorType
  | http
  | icmp
deriving DecidableEq, Repr

/-- `CurrentStatus` from `types.ts`. -/
inductive CurrentStatus
  | UP
  | DOWN
deriving DecidableEq, Repr

/-- `SlaveResult` from `types.ts`: one cached observation from one agent. -/
structure SlaveResult where
  success : Bool
  timestamp : Nat
  error : Option String
deriving DecidableEq, Repr

/-- The open-incident record `ServiceStatus.currentIncident`. -/
structure Incident where
  start : Nat
  error : Option String
deriving DecidableEq, Repr

/-- A closed incident stored in a `DailyDowntime` bucket (`end` is a Lean
keyword, rendered `endTime`). -/
structure ClosedIncident where
  start : Nat
  endTime : Nat
  error : Option String
deriving DecidableEq, Repr

/-- `DailyDowntime` from `types.ts`; `date` is the day-number abstraction of
the ISO date string. -/
structure DailyDowntime where
  date : Nat
  downtimeMs : Nat
  incidents : List ClosedIncident
deriving DecidableEq, Repr

/-- `ServiceStatus` from `types.ts`.  `slaveResults` is the `Map` as an
insertion-ordered association list.  Uptime percentages live in `ℚ`. -/
structure ServiceStatus where
  id : String
  name : String
  type : MonitorType
  url : Option String
  host : Option String
  interval : Nat
  timeout : Nat
  createdAt : Nat
  lastCheck : Nat
  lastStatus : CurrentStatus
  uptimePercentage : ℚ
  uptimePercentage30d : ℚ
  assignedSlaves : List String
  currentIncident : Option Incident
  downtimeLog : List DailyDowntime
  slaveResults : List (String × SlaveResult)
deriving DecidableEq, Repr

/-- `SlaveInfo` from `index.ts`: one agent record in the master's table. -/
structure SlaveInfo where
  name : String
  lastSeen : Nat
  services : List String
deriving DecidableEq, Repr

/-- The master's `slaves : Map<string, SlaveInfo>` as an association list. -/
abbrev SlaveTable := List (String × SlaveInfo)

/-- `Map.prototype.set`: replace in place when the key exists (insertion
order kept), append otherwise. -/
def mapSet (m : List (String × SlaveResult)) (k : String) (v : SlaveResult) :
    List (String × SlaveResult) :=
  if m.any (fun p => p.1 = k) then
    m.map (fun p => if p.1 = k then (k, v) else p)
  else
    m ++ [(k, v)]

/-- The stale-result filter inside `calculateServiceStatus`:
entries with `currentTime - result.timestamp < STALE_RESULT_THRESHOLD`. -/
def validResults (s : ServiceStatus) (currentTime : Nat) :
    List (String × SlaveResult) :=
  s.slaveResults.filter (fun p => currentTime - p.2.timestamp < STALE_RESULT_THRESHOLD)

/-- `successfulResults` inside `calculateServiceStatus`. -/
def successCount (s : ServiceStatus) (currentTime : Nat) : Nat :=
  ((validResults s currentTime).filter (fun p => p.2.success)).length

/-- `calculateServiceStatus` (src/index.ts:1030-1057): filter stale results;
with no valid result keep the previous status; otherwise UP iff the success
ratio is at least `CONSENSUS_THRESHOLD`. -/
def calculateServiceStatus (s : ServiceStatus) (currentTime : Nat) : CurrentStatus :=
  let valid := validResults s currentTime
  if valid.length = 0 then
    s.lastStatus
  else
    let totalValidResults := valid.length
    let successfulResults := (valid.filter (fun p => p.2.success)).length
    let consensusRatio : ℚ := (successfulResults : ℚ) / (totalValidResults : ℚ)
    if consensusRatio ≥ CONSENSUS_THRESHOLD then .UP else .DOWN

/-- `getDateString` (src/index.ts:1059-1061): the ISO calendar date of an
epoch-ms timestamp, abstracted as its day number. -/
def getDateString (timestamp : Nat) : Nat :=
  timestamp / 86400000

/-- `pruneOldDowntimeLogs` (src/index.ts:1063-1069): keep ledger entries whose
date is at least `DAYS_TO_KEEP` calendar days before today.  `setDate(d - 30)`
moves the clock back exactly 30 calendar days, so the cutoff day number is
`getDateString now - 30`. -/
def pruneOldDowntimeLogs (s : ServiceStatus) (now : Nat) : ServiceStatus :=
  let cutoffDate := getDateString now - DAYS_TO_KEEP
  { s with downtimeLog := s.downtimeLog.filter (fun log => log.date ≥ cutoffDate) }

/-- The ledger effect of `getDailyDowntime` (src/index.ts:1071-1084): if no
bucket for `date` exists, push a fresh empty one and re-sort the ledger by
date (JavaScript `Array.prototype.sort` is stable; `localeCompare` on ISO
dates is numeric comparison of day numbers). -/
def getDailyDowntimeLedger (ledger : List DailyDowntime) (date : Nat) :
    List DailyDowntime :=
  if ledger.any (fun l => l.date = date) then ledger
  else
    (ledger ++ [({ date := date, downtimeMs := 0, incidents := [] } : DailyDowntime)]).mergeSort
      (fun a b => a.date ≤ b.date)

/-- Mutation through the reference returned by `getDailyDowntime`: update the
first ledger entry carrying `date` (the one `find` returns). -/
def updateFirstLog (ledger : List DailyDowntime) (date : Nat)
    (f : DailyDowntime → DailyDowntime) : List DailyDowntime :=
  match ledger with
  | [] => []
  | l :: rest =>
      if l.date = date then f l :: rest
      else l :: updateFirstLog rest date f

/-- Sum of `downtimeMs` over a ledger (the `reduce` in
`updateUptimePercentages`). -/
def sumDowntime (ledger : List DailyDowntime) : Nat :=
  (ledger.map (fun l => l.downtimeMs)).sum

/-- `totalTime = now - service.createdAt` in `updateUptimePercentages`
(signed in JavaScript, hence `Int`). -/
def totalTimeOf (s : ServiceStatus) (now : Nat) : Int :=
  (now : Int) - (s.createdAt : Int)

/-- `thirtyDayTime = Math.min(totalTime, 30d)` in `updateUptimePercentages`. -/
def thirtyDayTimeOf (s : ServiceStatus) (now : Nat) : Int :=
  min (totalTimeOf s now) (THIRTY_DAYS_MS : Int)

/-- `updateUptimePercentages` (src/index.ts:1086-1101): recompute both
rolling percentages from the ledger.  A ledger date re-enters milliseconds
as `date * 86400000` (parsing the ISO string). -/
def updateUptimePercentages (s : ServiceStatus) (now : Nat) : ServiceStatus :=
  let thirtyDaysAgo : Int := (now : Int) - (THIRTY_DAYS_MS : Int)
  let totalDowntime := sumDowntime s.downtimeLog
  let totalTime := totalTimeOf s now
  let recentDowntime := sumDowntime
    (s.downtimeLog.filter (fun log => ((log.date * 86400000 : Nat) : Int) ≥ thirtyDaysAgo))
  let thirtyDayTime := thirtyDayTimeOf s now
  { s with
    uptimePercentage := (((totalTime : ℚ) - (totalDowntime : ℚ)) / (totalTime : ℚ)) * 100
    uptimePercentage30d :=
      (((thirtyDayTime : ℚ) - (recentDowntime : ℚ)) / (thirtyDayTime : ℚ)) * 100 }

/-- Alerts dispatched through the Discord collaborator, kept as observable
output of the embedding. -/
inductive Alert
  | down (service : String) (timestamp : Nat) (details : String)
  | up (service : String) (timestamp : Nat) (duration : Nat)
  | slaveOffline (slaveId : String) (name : String)
deriving DecidableEq, Repr

/-- Truthiness of an optional string (`undefined`, `null` and `""` are
falsy). -/
def truthyStr : Option String → Bool
  | none => false
  | some s => s ≠ ""

/-- `getSlaveErrors` (src/index.ts:1165-1172): join the error texts of every
failing cached observation, or a placeholder when none carry detail. -/
def getSlaveErrors (s : ServiceStatus) : String :=
  let errors := String.intercalate ", "
    ((s.slaveResults.filter (fun p => !p.2.success && truthyStr p.2.error)).map
      (fun p => p.1 ++ ": " ++ p.2.error.getD ""))
  if errors = "" then "No specific error details available" else errors

/-- `handleStatusChange` (src/index.ts:1103-1163): the per-service incident
state machine, returning the updated service and the alerts dispatched. -/
def handleStatusChange (s : ServiceStatus) (newStatus : CurrentStatus)
    (currentTime : Nat) : ServiceStatus × List Alert :=
  let currentDate := getDateString currentTime
  match newStatus, s.lastStatus, s.currentIncident with
  | .DOWN, .UP, _ =>
      let err := getSlaveErrors s
      ({ s with currentIncident := some ⟨currentTime, some err⟩, lastStatus := .DOWN },
       [.down s.name currentTime err])
  | .UP, .DOWN, some incident =>
      let downtimeDuration := currentTime - incident.start
      if downtimeDuration ≥ MIN_DOWNTIME_MS then
        let ledger := getDailyDowntimeLedger s.downtimeLog currentDate
        let ledger := updateFirstLog ledger currentDate (fun l =>
          { l with
            incidents := l.incidents ++ [⟨incident.start, currentTime, incident.error⟩]
            downtimeMs := l.downtimeMs + downtimeDuration })
        let s := { s with downtimeLog := ledger }
        let s := pruneOldDowntimeLogs s currentTime
        let s := updateUptimePercentages s currentTime
        ({ s with currentIncident := none, lastStatus := .UP },
         [.up s.name currentTime downtimeDuration])
      else
        ({ s with currentIncident := none, lastStatus := .UP }, [])
  | ns, _, _ => ({ s with lastStatus := ns }, [])

/-- One `/report` call as it reaches `handleReport` for a given service. -/
structure ReportEvent where
  slaveId : String
  success : Bool
  timestamp : Nat
  error : Option String
  now : Nat
deriving DecidableEq, Repr

/-- `handleReport` (src/index.ts:997-1028) restricted to the reported
service: cache the observation, evaluate consensus, run the incident state
machine when the status differs, stamp `lastCheck`. -/
def handleReport (s : ServiceStatus) (e : ReportEvent) : ServiceStatus × List Alert :=
  let s := { s with
    slaveResults := mapSet s.slaveResults e.slaveId ⟨e.success, e.timestamp, e.error⟩ }
  let newStatus := calculateServiceStatus s e.now
  let (s, alerts) :=
    if s.lastStatus ≠ newStatus then handleStatusChange s newStatus e.now
    else (s, [])
  ({ s with lastCheck := e.now }, alerts)

/-- Fold a sequence of report events over one service. -/
def runReports (s : ServiceStatus) (evs : List ReportEvent) : ServiceStatus :=
  evs.foldl (fun acc e => (handleReport acc e).1) s

/-- `addService` (src/index.ts:818-838): the freshly created record (the
random UUID and `Date.now()` are parameters). -/
def addService (id name : String) (type : MonitorType) (url host : Option String)
    (interval timeout now : Nat) : ServiceStatus :=
  { id := id
    name := name
    type := type
    url := url
    host := host
    interval := interval
    timeout := timeout
    createdAt := now
    lastCheck := 0
    lastStatus := .UP
    uptimePercentage := 100
    uptimePercentage30d := 100
    assignedSlaves := []
    currentIncident := none
    downtimeLog := []
    slaveResults := [] }

/-- The active-slave filter in `distributeService` (src/index.ts:910-912):
ids of slaves seen in the last minute. -/
def activeSlaveIds (slaves : SlaveTable) (now : Nat) : List String :=
  (slaves.filter (fun p => now - p.2.lastSeen < 60000)).map (fun p => p.1)

/-- `this.slaves.get(a)?.services.length || 0` in the load comparison. -/
def serviceCount (slaves : SlaveTable) (id : String) : Nat :=
  match slaves.find? (fun p => p.1 = id) with
  | some p => p.2.services.length
  | none => 0

/-- The `reduce` picking the available slave with fewest services
(src/index.ts:926-930); ties keep the earlier element. -/
def selectFewest (slaves : SlaveTable) (available : List String) : Option String :=
  match available with
  | [] => none
  | a :: rest =>
      some (rest.foldl (fun x y =>
        if serviceCount slaves x ≤ serviceCount slaves y then x else y) a)

/-- The `while` loop of `distributeService` (src/index.ts:921-933), with
explicit fuel; each iteration appends one agent, and the loop runs at most
`target ≤ 3` times, so fuel `3` is always enough. -/
def fillAssigned (slaves : SlaveTable) (active : List String) (target : Nat) :
    Nat → List String → List String
  | 0, assigned => assigned
  | fuel + 1, assigned =>
      if assigned.length < target then
        let available := active.filter (fun id => !assigned.contains id)
        match selectFewest slaves available with
        | none => assigned
        | some chosen => fillAssigned slaves active target fuel (assigned ++ [chosen])
      else assigned

/-- `distributeService` (src/index.ts:908-995): recompute the assignment and
reconcile every slave's claimed-service list.  The returned `Bool` is true
exactly when the no-active-slaves warning is logged (in which case the code
returns early without touching the assignment). -/
def distributeService (slaves : SlaveTable) (service : ServiceStatus) (now : Nat) :
    SlaveTable × ServiceStatus × Bool :=
  let active := activeSlaveIds slaves now
  if active.length = 0 then
    (slaves, service, true)
  else
    let assignedSlaves := service.assignedSlaves.filter (fun id => active.contains id)
    let assignedSlaves := fillAssigned slaves active (min 3 active.length) 3 assignedSlaves
    let service := { service with assignedSlaves := assignedSlaves }
    let slaves := slaves.map (fun p =>
      if assignedSlaves.contains p.1 && !p.2.services.contains service.id then
        (p.1, { p.2 with services := p.2.services ++ [service.id] })
      else p)
    let slaves := slaves.map (fun p =>
      if !assignedSlaves.contains p.1 && p.2.services.contains service.id then
        (p.1, { p.2 with services := p.2.services.filter (fun sid => sid ≠ service.id) })
      else p)
    (slaves, service, false)

/-- The master's two tables. -/
structure MasterState where
  services : List (String × ServiceStatus)
  slaves : SlaveTable
deriving DecidableEq, Repr

/-- One turn of the redistribution loop inside `checkSlaveHealth`
(src/index.ts:1214-1222): look the service up and re-distribute it. -/
def redistributeStep (now : Nat) (st : MasterState) (sid : String) : MasterState :=
  match st.services.find? (fun p => p.1 = sid) with
  | none => st
  | some q =>
      let r := distributeService st.slaves q.2 now
      { services := st.services.map (fun p => if p.1 = sid then (p.1, r.2.1) else p)
        slaves := r.1 }

/-- The redistribution loop inside `checkSlaveHealth` (src/index.ts:1214-1222):
re-distribute each service the stale slave claims. -/
def redistributeClaimed (st : MasterState) (serviceIds : List String) (now : Nat) :
    MasterState :=
  serviceIds.foldl (redistributeStep now) st

/-- Accumulator of the health sweep: evolving state, offline alerts, and for
each stale slave the pair (id, claimed services passed to redistribution). -/
structure SweepAcc where
  state : MasterState
  alerts : List Alert
  warned : List (String × List String)
deriving DecidableEq, Repr

/-- One iteration of the `checkSlaveHealth` loop for the slave id `slaveId`:
look up the live record; past 60s of silence warn and redistribute; past
300s also evict and alert. -/
def sweepStep (now : Nat) (acc : SweepAcc) (slaveId : String) : SweepAcc :=
  match acc.state.slaves.find? (fun p => p.1 = slaveId) with
  | none => acc
  | some q =>
      let info := q.2
      if now - info.lastSeen > 60000 then
        let st := redistributeClaimed acc.state info.services now
        let warned := acc.warned ++ [(slaveId, info.services)]
        if now - info.lastSeen > 300000 then
          { state := { st with slaves := st.slaves.filter (fun p => p.1 ≠ slaveId) }
            alerts := acc.alerts ++ [.slaveOffline slaveId info.name]
            warned := warned }
        else
          { state := st, alerts := acc.alerts, warned := warned }
      else acc

/-- `checkSlaveHealth` (src/index.ts:1203-1239): sweep every slave present
when the sweep starts (`Map` iteration order; the loop only ever deletes the
entry it is visiting, so iterating the initial key list is faithful). -/
def checkSlaveHealth (st : MasterState) (now : Nat) : SweepAcc :=
  (st.slaves.map (fun p => p.1)).foldl (sweepStep now) ⟨st, [], []⟩

/-- The partial-update body accepted by `editService`; `Option` records
which keys are present (`'host' in updates`). -/
structure ServiceUpdates where
  name : Option String
  url : Option String
  host : Option String
  interval : Option Nat
  timeout : Option Nat
deriving DecidableEq, Repr

/-- The errors `editService` can throw. -/
inductive EditError
  | notFound (id : String)
  | cannotUpdateHost
  | cannotUpdateUrl
deriving DecidableEq, Repr

/-- Truthiness of an optional number (`undefined` and `0` are falsy). -/
def truthyNat : Option Nat → Bool
  | none => false
  | some n => n ≠ 0

/-- `editService` (src/index.ts:869-906) up to its redistribution call,
threading the service table so that a throw carries the table exactly as it
stands at the throw site (both throws precede every field assignment). -/
def editService (services : List (String × ServiceStatus)) (id : String)
    (updates : ServiceUpdates) :
    Except (EditError × List (String × ServiceStatus))
      (List (String × ServiceStatus) × ServiceStatus) :=
  match services.find? (fun p => p.1 = id) with
  | none => .error (.notFound id, services)
  | some q =>
      let service := q.2
      if service.type = .http ∧ updates.host.isSome then
        .error (.cannotUpdateHost, services)
      else if service.type = .icmp ∧ updates.url.isSome then
        .error (.cannotUpdateUrl, services)
      else
        let service :=
          if truthyStr updates.name then { service with name := updates.name.getD service.name }
          else service
        let service :=
          if service.type = .http ∧ updates.url.isSome then
            { service with url := updates.url }
          else service
        let service :=
          if service.type = .icmp ∧ updates.host.isSome then
            { service with host := updates.host }
          else service
        let service :=
          if truthyNat updates.interval then
            { service with interval := updates.interval.getD service.interval }
          else service
        let service :=
          if truthyNat updates.timeout then
            { service with timeout := updates.timeout.getD service.timeout }
          else service
        .ok (services.map (fun p => if p.1 = id then (p.1, service) else p), service)

/-! ## Invariants and derived notions used by the claims -/

/-- The data-model invariant: a service is DOWN exactly when an incident is
open. -/
def statusIncidentInv (s : ServiceStatus) : Prop :=
  s.lastStatus = .DOWN ↔ s.currentIncident.isSome

instance (s : ServiceStatus) : Decidable (statusIncidentInv s) := by
  unfold statusIncidentInv; infer_instance

/-- Cumulative `downtimeMs` recorded for a given day (0 when the day has no
bucket); reads through `find` exactly as the code does. -/
def ledgerDowntimeOn (ledger : List DailyDowntime) (date : Nat) : Nat :=
  match ledger.find? (fun l => l.date = date) with
  | some l => l.downtimeMs
  | none => 0

/-! ## Example fixtures -/

/-- Example http service with four fresh observations, three successful. -/
def exSvc : ServiceStatus :=
  { id := "svc1", name := "web", type := .http, url := some "u", host := none
    interval := 30, timeout := 5, createdAt := 0, lastCheck := 0, lastStatus := .UP
    uptimePercentage := 100, uptimePercentage30d := 100, assignedSlaves := []
    currentIncident := none, downtimeLog := []
    slaveResults := [("a", ⟨true, 0, none⟩), ("b", ⟨true, 0, none⟩),
                     ("c", ⟨true, 0, none⟩), ("d", ⟨false, 0, some "boom"⟩)] }

/-! ## Claims -/

/-- **C1.** With at least one non-stale observation, consensus returns UP
exactly when the success ratio over the valid observations is at least
0.75; in particular 3 of 4 gives UP (boundary inclusive) and 2 of 4 gives
DOWN. -/
theorem claim_C1_consensus :
    (∀ (s : ServiceStatus) (now : Nat), 0 < (validResults s now).length →
      (calculateServiceStatus s now = .UP ↔
        (successCount s now : ℚ) / ((validResults s now).length : ℚ) ≥ CONSENSUS_THRESHOLD))
    ∧ (∀ (s : ServiceStatus) (now : Nat), (validResults s now).length = 4 →
        successCount s now = 3 → calculateServiceStatus s now = .UP)
    ∧ (∀ (s : ServiceStatus) (now : Nat), (validResults s now).length = 4 →
        successCount s now = 2 → calculateServiceStatus s now = .DOWN) := by
  have key : ∀ (s : ServiceStatus) (now : Nat), 0 < (validResults s now).length →
      (calculateServiceStatus s now = .UP ↔
        (successCount s now : ℚ) / ((validResults s now).length : ℚ) ≥ CONSENSUS_THRESHOLD) := by
    intro s now h
    unfold calculateServiceStatus
    simp only [successCount]
    split_ifs with h1 h2
    · omega
    · simpa using h2
    · simpa using h2
  refine ⟨key, ?_, ?_⟩
  · intro s now hN hk
    rw [key s now (by omega)]
    rw [hN, hk]
    norm_num [CONSENSUS_THRESHOLD]
  · intro s now hN hk
    have hiff := key s now (by omega)
    rcases hres : calculateServiceStatus s now with _ | _
    · exfalso
      have hge := hiff.mp hres
      rw [hN, hk] at hge
      norm_num [CONSENSUS_THRESHOLD] at hge
    · rfl

/-- Witness for C1 at a concrete 4-observation cache with 3 successes. -/
theorem claim_C1_consensus_witness :
    (validResults exSvc 1000).length = 4 ∧ successCount exSvc 1000 = 3 ∧
      calculateServiceStatus exSvc 1000 = .UP :=
  ⟨by decide, by decide, claim_C1_consensus.2.1 exSvc 1000 (by decide) (by decide)⟩

/-- `handleStatusChange` never touches the observation cache. -/
theorem handleStatusChange_slaveResults (s : ServiceStatus) (ns : CurrentStatus)
    (t : Nat) : ((handleStatusChange s ns t).1).slaveResults = s.slaveResults := by
  unfold handleStatusChange
  split
  · rfl
  · dsimp only
    split_ifs <;> simp [pruneOldDowntimeLogs, updateUptimePercentages]
  · rfl

/-- `Map.set` keeps every entry of a different key. -/
theorem mem_mapSet_of_ne (m : List (String × SlaveResult)) (k : String)
    (v : SlaveResult) (p : String × SlaveResult) (hp : p ∈ m) (hne : p.1 ≠ k) :
    p ∈ mapSet m k v := by
  unfold mapSet
  split
  · exact List.mem_map.mpr ⟨p, hp, by simp [hne]⟩
  · exact List.mem_append_left _ hp

/-- **C4.** An observation at least 5 minutes old never enters the valid set
used for consensus; report handling never deletes another agent's cached
observation (it is only superseded in place by that same agent); and when
every cached observation is stale the evaluation returns the stored status
unchanged. -/
theorem claim_C4_stale_exclusion :
    (∀ (s : ServiceStatus) (now : Nat) (p : String × SlaveResult),
        p ∈ s.slaveResults → STALE_RESULT_THRESHOLD ≤ now - p.2.timestamp →
        p ∉ validResults s now)
    ∧ (∀ (s : ServiceStatus) (e : ReportEvent) (p : String × SlaveResult),
        p ∈ s.slaveResults → p.1 ≠ e.slaveId →
        p ∈ ((handleReport s e).1).slaveResults)
    ∧ (∀ (s : ServiceStatus) (now : Nat), validResults s now = [] →
        calculateServiceStatus s now = s.lastStatus) := by
  refine ⟨?_, ?_, ?_⟩
  · intro s now p _ hstale hmem
    have := List.of_mem_filter hmem
    simp only [decide_eq_true_eq] at this
    omega
  · intro s e p hp hne
    unfold handleReport
    simp only
    split
    · rw [handleStatusChange_slaveResults]
      exact mem_mapSet_of_ne _ _ _ _ hp hne
    · exact mem_mapSet_of_ne _ _ _ _ hp hne
  · intro s now h
    unfold calculateServiceStatus
    simp [h]

/-- Witness for C4: at evaluation time 300000 the age of a cached
observation stamped 0 is exactly the stale threshold, and it is excluded. -/
theorem claim_C4_stale_exclusion_witness :
    ("a", (⟨true, 0, none⟩ : SlaveResult)) ∈ exSvc.slaveResults ∧
      ("a", (⟨true, 0, none⟩ : SlaveResult)) ∉ validResults exSvc 300000 :=
  ⟨by decide, claim_C4_stale_exclusion.1 exSvc 300000 _ (by decide) (by decide)⟩

/-- The incident state machine preserves the DOWN-iff-open-incident
invariant in every case. -/
theorem handleStatusChange_inv (s : ServiceStatus) (ns : CurrentStatus) (t : Nat)
    (h : statusIncidentInv s) : statusIncidentInv ((handleStatusChange s ns t).1) := by
  unfold handleStatusChange statusIncidentInv at *
  rcases hs : s.lastStatus with _ | _ <;> rcases hc : s.currentIncident with _ | inc <;>
    rcases ns with _ | _ <;>
    simp_all [pruneOldDowntimeLogs, updateUptimePercentages] <;>
    split_ifs <;> simp_all

/-- Report handling preserves the DOWN-iff-open-incident invariant. -/
theorem handleReport_inv (s : ServiceStatus) (e : ReportEvent)
    (h : statusIncidentInv s) : statusIncidentInv ((handleReport s e).1) := by
  unfold handleReport
  simp only
  split
  · have := handleStatusChange_inv
      { s with slaveResults := mapSet s.slaveResults e.slaveId ⟨e.success, e.timestamp, e.error⟩ }
      (calculateServiceStatus
        { s with slaveResults := mapSet s.slaveResults e.slaveId ⟨e.success, e.timestamp, e.error⟩ }
        e.now)
      e.now (by simpa [statusIncidentInv] using h)
    simpa [statusIncidentInv] using this
  · simpa [statusIncidentInv] using h

/-- Any sequence of reports preserves the DOWN-iff-open-incident invariant. -/
theorem runReports_inv (s : ServiceStatus) (evs : List ReportEvent)
    (h : statusIncidentInv s) : statusIncidentInv (runReports s evs) := by
  induction evs generalizing s with
  | nil => exact h
  | cons e rest ih => exact ih _ (handleReport_inv s e h)

/-- **C2.** A newly created service starts UP with no open incident; every
status transition of the incident state machine preserves the DOWN-iff-open-
incident equivalence; hence the equivalence holds for every service reachable
from creation by any sequence of report-handling operations. -/
theorem claim_C2_status_incident_invariant :
    (∀ (id name : String) (ty : MonitorType) (url host : Option String)
        (interval timeout now : Nat),
        (addService id name ty url host interval timeout now).lastStatus = .UP ∧
        (addService id name ty url host interval timeout now).currentIncident = none)
    ∧ (∀ (s : ServiceStatus) (ns : CurrentStatus) (t : Nat),
        statusIncidentInv s → statusIncidentInv ((handleStatusChange s ns t).1))
    ∧ (∀ (id name : String) (ty : MonitorType) (url host : Option String)
        (interval timeout now : Nat) (evs : List ReportEvent),
        statusIncidentInv
          (runReports (addService id name ty url host interval timeout now) evs)) := by
  refine ⟨?_, handleStatusChange_inv, ?_⟩
  · intro id name ty url host itv tmo now
    exact ⟨rfl, rfl⟩
  · intro id name ty url host itv tmo now evs
    exact runReports_inv _ _ (by simp [statusIncidentInv, addService])

/-- Witness for C2: the invariant holds on a concrete UP service and is
preserved by a concrete DOWN transition. -/
theorem claim_C2_status_incident_invariant_witness :
    statusIncidentInv exSvc ∧ statusIncidentInv ((handleStatusChange exSvc .DOWN 5).1) :=
  ⟨by decide, claim_C2_status_incident_invariant.2.1 exSvc .DOWN 5 (by decide)⟩

/-- `find?` is unchanged by a filter that keeps every match. -/
theorem find?_filter_of_imp {α : Type} (P keep : α → Bool) (l : List α)
    (h : ∀ x, P x = true → keep x = true) :
    (l.filter keep).find? P = l.find? P := by
  induction l with
  | nil => rfl
  | cons x rest ih =>
      by_cases hk : keep x = true
      · rw [List.filter_cons_of_pos hk]
        by_cases hp : P x = true
        · rw [List.find?_cons_of_pos _ hp, List.find?_cons_of_pos _ hp]
        · rw [List.find?_cons_of_neg _ (by simp_all),
            List.find?_cons_of_neg _ (by simp_all), ih]
      · have hp : ¬ P x = true := fun hPx => hk (h x hPx)
        rw [List.filter_cons_of_neg (by simp_all),
          List.find?_cons_of_neg _ (by simp_all), ih]

/-- `updateFirstLog` rewrites exactly the entry that `find?` returns. -/
theorem find?_updateFirstLog (ledger : List DailyDowntime) (date : Nat)
    (f : DailyDowntime → DailyDowntime) (l : DailyDowntime)
    (h : ledger.find? (fun x => x.date = date) = some l)
    (hf : (f l).date = date) :
    (updateFirstLog ledger date f).find? (fun x => x.date = date) = some (f l) := by
  induction ledger with
  | nil => simp at h
  | cons x rest ih =>
      by_cases hx : x.date = date
      · rw [List.find?_cons_of_pos _ (by simp [hx])] at h
        injection h with h; subst h
        unfold updateFirstLog
        rw [if_pos hx]
        rw [List.find?_cons_of_pos _ (by simp [hf])]
      · rw [List.find?_cons_of_neg _ (by simp [hx])] at h
        unfold updateFirstLog
        rw [if_neg hx]
        rw [List.find?_cons_of_neg _ (by simp [hx])]
        exact ih h

/-- In a list with exactly one match, `find?` returns it. -/
theorem find?_eq_of_unique {α : Type} (P : α → Bool) (l : List α) (a : α)
    (ha : a ∈ l) (hP : P a = true) (huniq : ∀ y ∈ l, P y = true → y = a) :
    l.find? P = some a := by
  induction l with
  | nil => simp at ha
  | cons x rest ih =>
      by_cases hx : P x = true
      · have : x = a := huniq x (by simp) hx
        subst this
        rw [List.find?_cons_of_pos _ hx]
      · rw [List.find?_cons_of_neg _ (by simp [hx])]
        rcases List.mem_cons.mp ha with h | h
        · subst h; simp [hP] at hx
        · exact ih h (fun y hy => huniq y (List.mem_cons_of_mem _ hy))

/-- After `getDailyDowntimeLedger`, `find?` locates a bucket for the date
whose accumulated milliseconds are those previously on record. -/
theorem find?_getDailyDowntimeLedger (ledger : List DailyDowntime) (date : Nat) :
    ∃ l, (getDailyDowntimeLedger ledger date).find? (fun x => x.date = date) = some l ∧
      l.date = date ∧ l.downtimeMs = ledgerDowntimeOn ledger date := by
  unfold getDailyDowntimeLedger ledgerDowntimeOn
  split
  · rename_i hany
    have : (ledger.find? (fun x => x.date = date)).isSome := by
      rw [List.find?_isSome]
      simpa [List.any_eq_true] using hany
    rcases Option.isSome_iff_exists.mp this with ⟨l, hl⟩
    refine ⟨l, hl, ?_, by rw [hl]⟩
    have := List.find?_some hl
    simpa using this
  · rename_i hany
    have hnone : ledger.find? (fun x => x.date = date) = none := by
      rw [List.find?_eq_none]
      intro x hx
      simp only [Bool.not_eq_true]
      by_contra hcon
      exact hany (List.any_eq_true.mpr ⟨x, hx, by simpa using hcon⟩)
    set fresh : DailyDowntime := { date := date, downtimeMs := 0, incidents := [] } with hfresh
    refine ⟨fresh, ?_, rfl, by rw [hnone]⟩
    apply find?_eq_of_unique
    · rw [List.mem_mergeSort]
      simp
    · simp
    · intro y hy hPy
      rw [List.mem_mergeSort] at hy
      rcases List.mem_append.mp hy with h | h
      · exfalso
        have : ¬ (ledger.any (fun l => l.date = date) = true) := hany
        exact this (List.any_eq_true.mpr ⟨y, h, hPy⟩)
      · simpa using h

/-- **C3.** On a DOWN→UP flip: a downtime shorter than 10 seconds is
discarded (ledger and both percentages untouched, no alert) though the
incident is still cleared and the status flipped; a downtime of at least
10 seconds (boundary inclusive) is appended to the bucket of the incident's
end date, that day's cumulative milliseconds grow by the duration, and a
recovery alert carrying the duration is dispatched. -/
theorem claim_C3_min_downtime : ∀ (s : ServiceStatus) (inc : Incident) (now : Nat),
    s.lastStatus = .DOWN → s.currentIncident = some inc →
    ((now - inc.start < MIN_DOWNTIME_MS →
      (handleStatusChange s .UP now).1.downtimeLog = s.downtimeLog ∧
      (handleStatusChange s .UP now).1.uptimePercentage = s.uptimePercentage ∧
      (handleStatusChange s .UP now).1.uptimePercentage30d = s.uptimePercentage30d ∧
      (handleStatusChange s .UP now).2 = [] ∧
      (handleStatusChange s .UP now).1.currentIncident = none ∧
      (handleStatusChange s .UP now).1.lastStatus = .UP)
    ∧ (MIN_DOWNTIME_MS ≤ now - inc.start →
      (∃ l, l ∈ (handleStatusChange s .UP now).1.downtimeLog ∧
        (handleStatusChange s .UP now).1.downtimeLog.find?
          (fun x => x.date = getDateString now) = some l ∧
        l.date = getDateString now ∧
        (⟨inc.start, now, inc.error⟩ : ClosedIncident) ∈ l.incidents ∧
        l.downtimeMs = ledgerDowntimeOn s.downtimeLog (getDateString now) + (now - inc.start)) ∧
      (handleStatusChange s .UP now).2 = [.up s.name now (now - inc.start)] ∧
      (handleStatusChange s .UP now).1.currentIncident = none ∧
      (handleStatusChange s .UP now).1.lastStatus = .UP)) := by
  intro s inc now hs hc
  constructor
  · intro hdur
    simp only [handleStatusChange, hs, hc]
    rw [if_neg (by omega)]
    refine ⟨?_, ?_, ?_, ?_, ?_, ?_⟩ <;> first | rfl | trivial
  · intro hdur
    simp only [handleStatusChange, hs, hc]
    rw [if_pos (by omega)]
    simp only [updateUptimePercentages, pruneOldDowntimeLogs]
    refine ⟨?_, ?_, ?_, ?_⟩
    rotate_left
    · first | rfl | trivial
    · first | rfl | trivial
    · first | rfl | trivial
    obtain ⟨l0, hfind0, hdate0, hms0⟩ :=
      find?_getDailyDowntimeLedger s.downtimeLog (getDateString now)
    set f : DailyDowntime → DailyDowntime := fun l =>
      { l with
        incidents := l.incidents ++ [⟨inc.start, now, inc.error⟩]
        downtimeMs := l.downtimeMs + (now - inc.start) } with hf
    have hfd : (f l0).date = getDateString now := by simp [hf, hdate0]
    have hfind1 := find?_updateFirstLog
      (getDailyDowntimeLedger s.downtimeLog (getDateString now)) (getDateString now)
      f l0 hfind0 hfd
    have hfind2 : ((updateFirstLog (getDailyDowntimeLedger s.downtimeLog (getDateString now))
          (getDateString now) f).filter
        (fun log => decide (log.date ≥ getDateString now - DAYS_TO_KEEP))).find?
          (fun x => x.date = getDateString now) = some (f l0) := by
      rw [find?_filter_of_imp]
      · exact hfind1
      · intro x hx
        simp only [decide_eq_true_eq] at hx ⊢
        omega
    refine ⟨f l0, ?_, ?_, hfd, ?_, ?_⟩
    · exact List.mem_of_find?_eq_some hfind2
    · exact hfind2
    · simp [hf]
    · simp [hf, hms0]

/-- Example service currently DOWN with an incident opened at time 0. -/
def exDownSvc : ServiceStatus :=
  { exSvc with lastStatus := .DOWN, currentIncident := some ⟨0, some "x"⟩ }

/-- Witness for C3 at a concrete 500 ms downtime: discarded as noise. -/
theorem claim_C3_min_downtime_witness :
    (handleStatusChange exDownSvc .UP 500).1.downtimeLog = exDownSvc.downtimeLog ∧
      (handleStatusChange exDownSvc .UP 500).1.uptimePercentage = exDownSvc.uptimePercentage ∧
      (handleStatusChange exDownSvc .UP 500).1.uptimePercentage30d = exDownSvc.uptimePercentage30d ∧
      (handleStatusChange exDownSvc .UP 500).2 = [] ∧
      (handleStatusChange exDownSvc .UP 500).1.currentIncident = none ∧
      (handleStatusChange exDownSvc .UP 500).1.lastStatus = .UP :=
  (claim_C3_min_downtime exDownSvc ⟨0, some "x"⟩ 500 (by decide) rfl).1 (by decide)

/-- The incident state machine never changes `createdAt`. -/
theorem handleStatusChange_createdAt (s : ServiceStatus) (ns : CurrentStatus)
    (t : Nat) : ((handleStatusChange s ns t).1).createdAt = s.createdAt := by
  unfold handleStatusChange
  split
  · rfl
  · dsimp only
    split_ifs <;> simp [pruneOldDowntimeLogs, updateUptimePercentages]
  · rfl

/-- After a status change, the open incident is the old one, closed, or one
freshly opened at the current time. -/
theorem handleStatusChange_incident (s : ServiceStatus) (ns : CurrentStatus)
    (t : Nat) :
    ((handleStatusChange s ns t).1).currentIncident = s.currentIncident ∨
    ((handleStatusChange s ns t).1).currentIncident = none ∨
    ∃ err, ((handleStatusChange s ns t).1).currentIncident = some ⟨t, err⟩ := by
  unfold handleStatusChange
  split
  · right; right; exact ⟨some (getSlaveErrors s), rfl⟩
  · dsimp only
    split_ifs <;> right <;> left <;>
      simp [pruneOldDowntimeLogs, updateUptimePercentages]
  · left; rfl

/-- Report handling never changes `createdAt`. -/
theorem handleReport_createdAt (s : ServiceStatus) (e : ReportEvent) :
    ((handleReport s e).1).createdAt = s.createdAt := by
  unfold handleReport
  simp only
  split
  · rw [handleStatusChange_createdAt]
  · rfl

/-- After a report, the open incident is the old one, closed, or freshly
opened at the report-processing time. -/
theorem handleReport_incident (s : ServiceStatus) (e : ReportEvent) :
    ((handleReport s e).1).currentIncident = s.currentIncident ∨
    ((handleReport s e).1).currentIncident = none ∨
    ∃ err, ((handleReport s e).1).currentIncident = some ⟨e.now, err⟩ := by
  unfold handleReport
  simp only
  split
  · exact handleStatusChange_incident _ _ _
  · left; rfl

/-- Along any report trace whose event times never precede `c`, an open
incident never starts before `c`. -/
theorem runReports_incident_start (c : Nat) (s : ServiceStatus)
    (evs : List ReportEvent)
    (hc : ∀ inc, s.currentIncident = some inc → c ≤ inc.start)
    (hnow : ∀ e ∈ evs, c ≤ e.now) :
    ∀ inc, (runReports s evs).currentIncident = some inc → c ≤ inc.start := by
  induction evs generalizing s with
  | nil => exact hc
  | cons e rest ih =>
      refine ih (handleReport s e).1 ?_ (fun x hx => hnow x (List.mem_cons_of_mem _ hx))
      intro inc hinc
      rcases handleReport_incident s e with h | h | ⟨err, h⟩
      · exact hc inc (h ▸ hinc)
      · rw [h] at hinc; cases hinc
      · rw [h] at hinc
        injection hinc with hinc
        subst hinc
        exact hnow e (by simp)

/-- **C10.** A recorded incident lasts at least 10000 ms and starts no
earlier than service creation, so when the percentages are recomputed on
incident close, both divisors — the total service age and its cap at 30
days — are strictly positive; and along any report trace starting from a
fresh service with non-time-travelling report times, an open incident indeed
never starts before creation. -/
theorem claim_C10_division_safety :
    (∀ (s : ServiceStatus) (inc : Incident) (now : Nat),
        s.currentIncident = some inc → s.createdAt ≤ inc.start →
        MIN_DOWNTIME_MS ≤ now - inc.start →
        0 < totalTimeOf s now ∧ 0 < thirtyDayTimeOf s now)
    ∧ (∀ (id name : String) (ty : MonitorType) (url host : Option String)
        (interval timeout t0 : Nat) (evs : List ReportEvent) (inc : Incident),
        (∀ e ∈ evs, t0 ≤ e.now) →
        (runReports (addService id name ty url host interval timeout t0) evs).currentIncident
          = some inc →
        t0 ≤ inc.start) := by
  constructor
  · intro s inc now _ hstart hdur
    unfold totalTimeOf thirtyDayTimeOf MIN_DOWNTIME_MS at *
    unfold totalTimeOf THIRTY_DAYS_MS
    constructor <;> omega
  · intro id name ty url host itv tmo t0 evs inc hnow hsome
    exact runReports_incident_start t0 _ evs
      (by intro i h; simp [addService] at h) hnow inc hsome

/-- Witness for C10 on a concrete 12-second-old incident. -/
theorem claim_C10_division_safety_witness :
    0 < totalTimeOf exDownSvc 12000 ∧ 0 < thirtyDayTimeOf exDownSvc 12000 :=
  claim_C10_division_safety.1 exDownSvc ⟨0, some "x"⟩ 12000 rfl (by decide) (by decide)

/-- **C8.** `editService` rejects a `host` update on an http service and a
`url` update on an icmp service, and rejects unknown ids, in every case
before any mutation: the error carries the service table exactly as it was. -/
theorem claim_C8_edit_rejection :
    ∀ (services : List (String × ServiceStatus)) (id : String) (u : ServiceUpdates),
    (∀ q, services.find? (fun p => p.1 = id) = some q → q.2.type = .http →
        u.host.isSome → editService services id u = .error (.cannotUpdateHost, services))
    ∧ (∀ q, services.find? (fun p => p.1 = id) = some q → q.2.type = .icmp →
        u.url.isSome → editService services id u = .error (.cannotUpdateUrl, services))
    ∧ (services.find? (fun p => p.1 = id) = none →
        editService services id u = .error (.notFound id, services)) := by
  intro services id u
  refine ⟨?_, ?_, ?_⟩
  · intro q hq hty hhost
    unfold editService
    rw [hq]
    dsimp only
    rw [if_pos ⟨hty, hhost⟩]
  · intro q hq hty hurl
    unfold editService
    rw [hq]
    dsimp only
    rw [if_neg (by simp [hty]), if_pos ⟨hty, hurl⟩]
  · intro hnone
    unfold editService
    rw [hnone]

/-- A one-service table for the C8 witness. -/
def exTable : List (String × ServiceStatus) := [("svc1", exSvc)]

/-- Witness for C8: a host update on the concrete http service is rejected
with the table untouched. -/
theorem claim_C8_edit_rejection_witness :
    exTable.find? (fun p => p.1 = "svc1") = some ("svc1", exSvc) ∧
      editService exTable "svc1" ⟨none, none, some "h", none, none⟩ =
        .error (.cannotUpdateHost, exTable) :=
  ⟨by decide, (claim_C8_edit_rejection exTable "svc1" ⟨none, none, some "h", none, none⟩).1
    ("svc1", exSvc) (by decide) (by decide) (by decide)⟩



/-- Maps that keep keys and heartbeats do not change the active set. -/
theorem activeSlaveIds_map (g : String × SlaveInfo → String × SlaveInfo)
    (hg : ∀ p, (g p).1 = p.1 ∧ (g p).2.lastSeen = p.2.lastSeen) (now : Nat)
    (l : SlaveTable) :
    activeSlaveIds (l.map g) now = activeSlaveIds l now := by
  induction l with
  | nil => rfl
  | cons p rest ih =>
      unfold activeSlaveIds at *
      simp only [List.map_cons, List.filter_cons, (hg p).2]
      split
      · simp only [List.map_cons, (hg p).1, ih]
      · exact ih

/-- With no active slave, `distributeService` only logs a warning: both
tables and the service are returned untouched. -/
theorem distributeService_of_no_active (slaves : SlaveTable)
    (service : ServiceStatus) (now : Nat)
    (h0 : (activeSlaveIds slaves now).length = 0) :
    distributeService slaves service now = (slaves, service, true) := by
  unfold distributeService
  dsimp only
  rw [if_pos h0]

/-- With at least one active slave, the new assignment is the filled-up
filtered previous assignment. -/
theorem distributeService_assigned (slaves : SlaveTable) (service : ServiceStatus)
    (now : Nat) (h0 : ¬ (activeSlaveIds slaves now).length = 0) :
    (distributeService slaves service now).2.1.assignedSlaves =
      fillAssigned slaves (activeSlaveIds slaves now)
        (min 3 (activeSlaveIds slaves now).length) 3
        (service.assignedSlaves.filter
          (fun id => (activeSlaveIds slaves now).contains id)) := by
  unfold distributeService
  dsimp only
  rw [if_neg h0]

/-- With at least one active slave, no warning is logged. -/
theorem distributeService_warn (slaves : SlaveTable) (service : ServiceStatus)
    (now : Nat) (h0 : ¬ (activeSlaveIds slaves now).length = 0) :
    (distributeService slaves service now).2.2 = false := by
  unfold distributeService
  dsimp only
  rw [if_neg h0]

/-- `distributeService` does not change the active set (it never touches
keys or heartbeats). -/
theorem activeSlaveIds_distributeService (slaves : SlaveTable)
    (service : ServiceStatus) (now t : Nat) :
    activeSlaveIds (distributeService slaves service now).1 t =
      activeSlaveIds slaves t := by
  unfold distributeService
  dsimp only
  split
  · rfl
  · rw [activeSlaveIds_map _ (fun p => ⟨by split <;> rfl, by split <;> rfl⟩) t,
      activeSlaveIds_map _ (fun p => ⟨by split <;> rfl, by split <;> rfl⟩) t]



/-- The pairwise-minimum fold stays inside its candidate pool. -/
theorem foldl_min_mem (slaves : SlaveTable) (rest : List String) :
    ∀ (a : String),
      rest.foldl (fun x y => if serviceCount slaves x ≤ serviceCount slaves y then x else y) a
        ∈ a :: rest := by
  induction rest with
  | nil => intro a; simp
  | cons b rs ih =>
      intro a
      simp only [List.foldl_cons]
      by_cases hc : serviceCount slaves a ≤ serviceCount slaves b
      · rw [if_pos hc]
        rcases List.mem_cons.mp (ih a) with h | h
        · simp [h]
        · simp [List.mem_cons, h]
      · rw [if_neg hc]
        rcases List.mem_cons.mp (ih b) with h | h
        · simp [h]
        · simp [List.mem_cons, h]

/-- The load-balancing `reduce` returns an element of its input. -/
theorem selectFewest_mem (slaves : SlaveTable) (available : List String)
    (c : String) (h : selectFewest slaves available = some c) : c ∈ available := by
  match available, h with
  | a :: rest, h =>
      unfold selectFewest at h
      injection h with h
      subst h
      exact foldl_min_mem slaves rest a

/-- The `reduce` finds nobody exactly when nobody is available. -/
theorem selectFewest_eq_none (slaves : SlaveTable) (available : List String) :
    selectFewest slaves available = none ↔ available = [] := by
  cases available <;> simp [selectFewest]

/-- Elements produced by the assignment loop come from the initial
assignment or from the active pool. -/
theorem fillAssigned_mem (slaves : SlaveTable) (active : List String) (target : Nat) :
    ∀ (fuel : Nat) (assigned : List String) (x : String),
      x ∈ fillAssigned slaves active target fuel assigned →
      x ∈ assigned ∨ x ∈ active := by
  intro fuel
  induction fuel with
  | zero => intro assigned x h; exact Or.inl h
  | succ n ih =>
      intro assigned x h
      unfold fillAssigned at h
      by_cases hlen : assigned.length < target
      · rw [if_pos hlen] at h
        dsimp only at h
        rcases hsel : selectFewest slaves
            (active.filter (fun id => !assigned.contains id)) with _ | c
        · rw [hsel] at h; exact Or.inl h
        · rw [hsel] at h
          rcases ih (assigned ++ [c]) x h with h2 | h2
          · rcases List.mem_append.mp h2 with h3 | h3
            · exact Or.inl h3
            · right
              have hx : x = c := by simpa using h3
              rw [hx]
              exact List.mem_of_mem_filter (selectFewest_mem slaves _ c hsel)
          · exact Or.inr h2
      · rw [if_neg hlen] at h; exact Or.inl h

/-- The assignment loop never introduces a duplicate. -/
theorem fillAssigned_nodup (slaves : SlaveTable) (active : List String) (target : Nat) :
    ∀ (fuel : Nat) (assigned : List String), assigned.Nodup →
      (fillAssigned slaves active target fuel assigned).Nodup := by
  intro fuel
  induction fuel with
  | zero => intro assigned h; exact h
  | succ n ih =>
      intro assigned h
      unfold fillAssigned
      by_cases hlen : assigned.length < target
      · rw [if_pos hlen]
        dsimp only
        rcases hsel : selectFewest slaves
            (active.filter (fun id => !assigned.contains id)) with _ | c
        · exact h
        · apply ih
          have hc := selectFewest_mem slaves _ c hsel
          have hnotin : c ∉ assigned := by
            have := List.of_mem_filter hc
            simpa using this
          simp [List.nodup_append, h, hnotin]
      · rw [if_neg hlen]; exact h

/-- The assignment loop never overshoots the larger of its start size and
the target size. -/
theorem fillAssigned_length_le (slaves : SlaveTable) (active : List String)
    (target : Nat) :
    ∀ (fuel : Nat) (assigned : List String),
      (fillAssigned slaves active target fuel assigned).length ≤
        max assigned.length target := by
  intro fuel
  induction fuel with
  | zero => intro assigned; simp [fillAssigned]
  | succ n ih =>
      intro assigned
      unfold fillAssigned
      by_cases hlen : assigned.length < target
      · rw [if_pos hlen]
        dsimp only
        rcases hsel : selectFewest slaves
            (active.filter (fun id => !assigned.contains id)) with _ | c
        · dsimp only
          simp
        · dsimp only
          have := ih (assigned ++ [c])
          simp only [List.length_append, List.length_cons, List.length_nil] at this
          omega
      · rw [if_neg hlen]; simp

/-- With enough fuel the loop stops only at its stop condition: target
reached or pool exhausted. -/
theorem fillAssigned_stop (slaves : SlaveTable) (active : List String) (target : Nat) :
    ∀ (fuel : Nat) (assigned : List String), target - assigned.length ≤ fuel →
      target ≤ (fillAssigned slaves active target fuel assigned).length ∨
      active.filter
        (fun id => !(fillAssigned slaves active target fuel assigned).contains id) = [] := by
  intro fuel
  induction fuel with
  | zero =>
      intro assigned hfuel
      left
      unfold fillAssigned
      omega
  | succ n ih =>
      intro assigned hfuel
      unfold fillAssigned
      by_cases hlen : assigned.length < target
      · rw [if_pos hlen]
        dsimp only
        rcases hsel : selectFewest slaves
            (active.filter (fun id => !assigned.contains id)) with _ | c
        · dsimp only
          right
          exact (selectFewest_eq_none slaves _).mp hsel
        · dsimp only
          have := ih (assigned ++ [c])
          simp only [List.length_append, List.length_cons, List.length_nil] at this
          exact this (by omega)
      · rw [if_neg hlen]
        left
        omega

/-- A state satisfying the stop condition is a fixed point of the loop. -/
theorem fillAssigned_of_stopped (slaves : SlaveTable) (active : List String)
    (target : Nat) (assigned : List String)
    (h : target ≤ assigned.length ∨
      active.filter (fun id => !assigned.contains id) = []) :
    ∀ (fuel : Nat), fillAssigned slaves active target fuel assigned = assigned := by
  intro fuel
  cases fuel with
  | zero => rfl
  | succ n =>
      unfold fillAssigned
      by_cases hlen : assigned.length < target
      · rw [if_pos hlen]
        dsimp only
        rcases h with h | h
        · omega
        · rw [h]
          simp [selectFewest]
      · rw [if_neg hlen]



/-- **C5 (amended).** When at least one agent is active, redistribution
leaves the service assigned only to active agents, without duplicates, and
with at most `min 3 (number of active agents)` entries (the prior assignment
being a duplicate-free list of at most 3 ids, as the code maintains); when
zero agents are active the code logs a warning and returns early, leaving
the assignment unchanged — it does *not* empty it. -/
theorem claim_C5_distribution : ∀ (slaves : SlaveTable) (service : ServiceStatus) (now : Nat),
    (activeSlaveIds slaves now = [] →
      distributeService slaves service now = (slaves, service, true))
    ∧ (activeSlaveIds slaves now ≠ [] →
      service.assignedSlaves.Nodup → service.assignedSlaves.length ≤ 3 →
      (∀ x ∈ (distributeService slaves service now).2.1.assignedSlaves,
          x ∈ activeSlaveIds slaves now) ∧
      (distributeService slaves service now).2.1.assignedSlaves.Nodup ∧
      (distributeService slaves service now).2.1.assignedSlaves.length ≤
        min 3 (activeSlaveIds slaves now).length ∧
      (distributeService slaves service now).2.2 = false) := by
  intro slaves service now
  constructor
  · intro h
    exact distributeService_of_no_active slaves service now (by simp [h])
  · intro hne hnodup hlen3
    have h0 : ¬ (activeSlaveIds slaves now).length = 0 := by
      intro h0
      exact hne (List.length_eq_zero.mp h0)
    rw [distributeService_assigned slaves service now h0]
    have hinit_sub : ∀ x ∈ service.assignedSlaves.filter
        (fun id => (activeSlaveIds slaves now).contains id), x ∈ activeSlaveIds slaves now := by
      intro x hx
      have := List.of_mem_filter hx
      simpa using this
    have hinit_nodup := hnodup.filter
      (fun id => (activeSlaveIds slaves now).contains id)
    have hinit_le3 : (service.assignedSlaves.filter
        (fun id => (activeSlaveIds slaves now).contains id)).length ≤ 3 :=
      le_trans (List.length_filter_le _ _) hlen3
    have hinit_leA : (service.assignedSlaves.filter
        (fun id => (activeSlaveIds slaves now).contains id)).length ≤
        (activeSlaveIds slaves now).length :=
      (List.subperm_of_subset hinit_nodup hinit_sub).length_le
    refine ⟨?_, ?_, ?_, distributeService_warn slaves service now h0⟩
    · intro x hx
      rcases fillAssigned_mem slaves _ _ 3 _ x hx with h | h
      · exact hinit_sub x h
      · exact h
    · exact fillAssigned_nodup slaves _ _ 3 _ hinit_nodup
    · have := fillAssigned_length_le slaves (activeSlaveIds slaves now)
        (min 3 (activeSlaveIds slaves now).length) 3
        (service.assignedSlaves.filter (fun id => (activeSlaveIds slaves now).contains id))
      omega

/-- Fixture: one slave last seen at time 0, claiming `svc1`. -/
def cexSlaves : SlaveTable := [("s1", { name := "a", lastSeen := 0, services := ["svc1"] })]

/-- Fixture: the example service currently assigned to `s1`. -/
def cexAssignedSvc : ServiceStatus := { exSvc with assignedSlaves := ["s1"] }

/-- Counterexample to C5 as stated: with its only assigned agent `s1`
inactive and zero agents active, `distributeService` keeps the assignment
`["s1"]` — it does not become empty and it retains an inactive agent. -/
theorem claim_C5_distribution_cex :
    activeSlaveIds cexSlaves 60000 = [] ∧
      (distributeService cexSlaves cexAssignedSvc 60000).2.1.assignedSlaves = ["s1"] ∧
      "s1" ∉ activeSlaveIds cexSlaves 60000 := by
  refine ⟨by decide, ?_, by decide⟩
  rw [distributeService_of_no_active cexSlaves cexAssignedSvc 60000 (by decide)]
  rfl

/-- **C9.** Distributing twice in a row with no intervening agent or
service change (same tables, same time) yields the same assignment after the
second call as after the first. -/
theorem claim_C9_distribute_idempotent : ∀ (slaves : SlaveTable) (service : ServiceStatus) (now : Nat),
    (distributeService (distributeService slaves service now).1
        (distributeService slaves service now).2.1 now).2.1.assignedSlaves =
      (distributeService slaves service now).2.1.assignedSlaves := by
  intro slaves service now
  have hact : activeSlaveIds (distributeService slaves service now).1 now =
      activeSlaveIds slaves now := activeSlaveIds_distributeService slaves service now now
  by_cases h0 : (activeSlaveIds slaves now).length = 0
  · rw [distributeService_of_no_active slaves service now h0]
    rw [distributeService_of_no_active slaves service now h0]
  · have h0' : ¬ (activeSlaveIds (distributeService slaves service now).1 now).length = 0 := by
      rw [hact]; exact h0
    rw [distributeService_assigned _ _ now h0']
    rw [hact]
    rw [distributeService_assigned slaves service now h0]
    have hr_sub : ∀ x ∈ fillAssigned slaves (activeSlaveIds slaves now)
        (min 3 (activeSlaveIds slaves now).length) 3
        (service.assignedSlaves.filter (fun id => (activeSlaveIds slaves now).contains id)),
        x ∈ activeSlaveIds slaves now := by
      intro x hx
      rcases fillAssigned_mem slaves _ _ 3 _ x hx with h | h
      · have := List.of_mem_filter h
        simpa using this
      · exact h
    have hfiltr : (fillAssigned slaves (activeSlaveIds slaves now)
        (min 3 (activeSlaveIds slaves now).length) 3
        (service.assignedSlaves.filter
          (fun id => (activeSlaveIds slaves now).contains id))).filter
        (fun id => (activeSlaveIds slaves now).contains id) =
        fillAssigned slaves (activeSlaveIds slaves now)
          (min 3 (activeSlaveIds slaves now).length) 3
          (service.assignedSlaves.filter
            (fun id => (activeSlaveIds slaves now).contains id)) := by
      apply List.filter_eq_self.mpr
      intro x hx
      simpa using hr_sub x hx
    rw [hfiltr]
    apply fillAssigned_of_stopped
    have := fillAssigned_stop slaves (activeSlaveIds slaves now)
      (min 3 (activeSlaveIds slaves now).length) 3
      (service.assignedSlaves.filter
        (fun id => (activeSlaveIds slaves now).contains id)) (by omega)
    exact this


/-- Fixture: one slave freshly seen at time 0 with no claimed services. -/
def exActiveSlaves : SlaveTable := [("s1", { name := "a", lastSeen := 0, services := [] })]

/-- Witness for C5 with one active agent and an empty prior assignment. -/
theorem claim_C5_distribution_witness :
    activeSlaveIds exActiveSlaves 1000 ≠ [] ∧
      (∀ x ∈ (distributeService exActiveSlaves exSvc 1000).2.1.assignedSlaves,
          x ∈ activeSlaveIds exActiveSlaves 1000) ∧
      (distributeService exActiveSlaves exSvc 1000).2.1.assignedSlaves.Nodup ∧
      (distributeService exActiveSlaves exSvc 1000).2.1.assignedSlaves.length ≤
        min 3 (activeSlaveIds exActiveSlaves 1000).length ∧
      (distributeService exActiveSlaves exSvc 1000).2.2 = false :=
  ⟨by decide,
    (claim_C5_distribution exActiveSlaves exSvc 1000).2 (by decide) (by decide) (by decide)⟩



/-- `updateFirstLog` with a date-preserving update keeps the date column
unchanged. -/
theorem updateFirstLog_map_date (ledger : List DailyDowntime) (date : Nat)
    (f : DailyDowntime → DailyDowntime) (hf : ∀ l, (f l).date = l.date) :
    (updateFirstLog ledger date f).map (fun l => l.date) =
      ledger.map (fun l => l.date) := by
  induction ledger with
  | nil => rfl
  | cons x rest ih =>
      unfold updateFirstLog
      split
      · simp [hf]
      · simp [ih]

/-- `getDailyDowntimeLedger` keeps the date column duplicate-free and
sorted. -/
theorem getDailyDowntimeLedger_dates (ledger : List DailyDowntime) (date : Nat)
    (hnodup : (ledger.map (fun l => l.date)).Nodup)
    (hsorted : (ledger.map (fun l => l.date)).Pairwise (· ≤ ·)) :
    ((getDailyDowntimeLedger ledger date).map (fun l => l.date)).Nodup ∧
      ((getDailyDowntimeLedger ledger date).map (fun l => l.date)).Pairwise (· ≤ ·) := by
  unfold getDailyDowntimeLedger
  split
  · exact ⟨hnodup, hsorted⟩
  · rename_i hany
    constructor
    · have hperm : List.Perm
          (((ledger ++ [({ date := date, downtimeMs := 0, incidents := [] } :
            DailyDowntime)]).mergeSort (fun a b => a.date ≤ b.date)).map (fun l => l.date))
          ((ledger ++ [({ date := date, downtimeMs := 0, incidents := [] } :
            DailyDowntime)]).map (fun l => l.date)) :=
        (List.mergeSort_perm _ _).map _
      rw [hperm.nodup_iff]
      have hnotin : date ∉ ledger.map (fun l => l.date) := by
        intro hmem
        rcases List.mem_map.mp hmem with ⟨l, hl, hld⟩
        exact hany (List.any_eq_true.mpr ⟨l, hl, by simpa using hld⟩)
      simp [List.nodup_append, hnodup, hnotin]
    · have hs := @List.sorted_mergeSort DailyDowntime
        (fun a b => decide (a.date ≤ b.date))
        (fun a b c => by simp only [decide_eq_true_eq]; omega)
        (fun a b => by simp only [Bool.or_eq_true, decide_eq_true_eq]; omega)
        (ledger ++ [({ date := date, downtimeMs := 0, incidents := [] } : DailyDowntime)])
      rw [List.pairwise_map]
      exact hs.imp (fun h => by simpa using h)

/-- **C6.** Recording an incident keeps the downtime ledger with at most
one bucket per calendar date and sorted ascending by date, and prunes every
bucket dated more than 30 days before now (one dated exactly 31 days ago is
absent), so the subsequent percentage recomputation never sees it. -/
theorem claim_C6_ledger_invariants : ∀ (s : ServiceStatus) (inc : Incident) (now : Nat),
    s.lastStatus = .DOWN → s.currentIncident = some inc →
    MIN_DOWNTIME_MS ≤ now - inc.start →
    ((s.downtimeLog.map (fun l => l.date)).Nodup) →
    ((s.downtimeLog.map (fun l => l.date)).Pairwise (· ≤ ·)) →
    (((handleStatusChange s .UP now).1.downtimeLog.map (fun l => l.date)).Nodup ∧
      ((handleStatusChange s .UP now).1.downtimeLog.map (fun l => l.date)).Pairwise (· ≤ ·) ∧
      ∀ l ∈ (handleStatusChange s .UP now).1.downtimeLog,
        getDateString now - DAYS_TO_KEEP ≤ l.date) := by
  intro s inc now hs hc hdur hnodup hsorted
  simp only [handleStatusChange, hs, hc]
  rw [if_pos (by omega)]
  simp only [updateUptimePercentages, pruneOldDowntimeLogs]
  obtain ⟨hn1, hs1⟩ := getDailyDowntimeLedger_dates s.downtimeLog (getDateString now)
    hnodup hsorted
  have hmap := updateFirstLog_map_date
    (getDailyDowntimeLedger s.downtimeLog (getDateString now)) (getDateString now)
    (fun l => { l with
      incidents := l.incidents ++ [⟨inc.start, now, inc.error⟩]
      downtimeMs := l.downtimeMs + (now - inc.start) }) (fun l => rfl)
  have hsub : ((updateFirstLog (getDailyDowntimeLedger s.downtimeLog (getDateString now))
        (getDateString now) (fun l => { l with
          incidents := l.incidents ++ [⟨inc.start, now, inc.error⟩]
          downtimeMs := l.downtimeMs + (now - inc.start) })).filter
      (fun log => decide (log.date ≥ getDateString now - DAYS_TO_KEEP))).map
        (fun l => l.date) |>.Sublist
      ((updateFirstLog (getDailyDowntimeLedger s.downtimeLog (getDateString now))
        (getDateString now) (fun l => { l with
          incidents := l.incidents ++ [⟨inc.start, now, inc.error⟩]
          downtimeMs := l.downtimeMs + (now - inc.start) })).map (fun l => l.date)) :=
    (List.filter_sublist _).map _
  refine ⟨?_, ?_, ?_⟩
  · exact List.Nodup.sublist (hmap ▸ hsub) hn1
  · exact List.Pairwise.sublist (hmap ▸ hsub) hs1
  · intro l hl
    have := List.of_mem_filter hl
    simpa using this


/-- Witness for C6 on a concrete 20-second incident over an empty ledger. -/
theorem claim_C6_ledger_invariants_witness :
    (((handleStatusChange exDownSvc .UP 20000).1.downtimeLog.map (fun l => l.date)).Nodup ∧
      ((handleStatusChange exDownSvc .UP 20000).1.downtimeLog.map
        (fun l => l.date)).Pairwise (· ≤ ·) ∧
      ∀ l ∈ (handleStatusChange exDownSvc .UP 20000).1.downtimeLog,
        getDateString 20000 - DAYS_TO_KEEP ≤ l.date) :=
  claim_C6_ledger_invariants exDownSvc ⟨0, some "x"⟩ 20000 (by decide) rfl (by decide)
    (by decide) (by decide)



/-- The identity-and-heartbeat column of the agent table. -/
def skeleton (sl : SlaveTable) : List (String × String × Nat) :=
  sl.map (fun p => (p.1, p.2.name, p.2.lastSeen))

/-- `distributeService` only edits claimed-service lists: keys, names and
heartbeats survive. -/
theorem skeleton_distributeService (slaves : SlaveTable) (service : ServiceStatus)
    (now : Nat) : skeleton (distributeService slaves service now).1 = skeleton slaves := by
  unfold distributeService
  dsimp only
  split
  · rfl
  · unfold skeleton
    rw [List.map_map, List.map_map]
    apply List.map_congr_left
    intro p _
    simp only [Function.comp]
    split <;> split <;> rfl

/-- One redistribution turn preserves the skeleton. -/
theorem skeleton_redistributeStep (now : Nat) (st : MasterState) (sid : String) :
    skeleton (redistributeStep now st sid).slaves = skeleton st.slaves := by
  unfold redistributeStep
  split
  · rfl
  · exact skeleton_distributeService _ _ _

/-- Redistribution of a batch of services preserves the skeleton. -/
theorem skeleton_redistributeClaimed (serviceIds : List String) :
    ∀ (st : MasterState) (now : Nat),
      skeleton (redistributeClaimed st serviceIds now).slaves = skeleton st.slaves := by
  induction serviceIds with
  | nil => intro st now; rfl
  | cons sid rest ih =>
      intro st now
      unfold redistributeClaimed at *
      rw [List.foldl_cons, ih, skeleton_redistributeStep]

/-- Equal skeletons give `find?` results with equal key, name and
heartbeat. -/
theorem find?_of_skeleton (k : String) :
    ∀ (sl sl' : SlaveTable), skeleton sl' = skeleton sl →
      Option.map (fun p => ((p : String × SlaveInfo).1, p.2.name, p.2.lastSeen))
          (sl'.find? (fun p => p.1 = k)) =
        Option.map (fun p => (p.1, p.2.name, p.2.lastSeen))
          (sl.find? (fun p => p.1 = k)) := by
  intro sl
  induction sl with
  | nil =>
      intro sl' h
      have : sl' = [] := by
        unfold skeleton at h
        exact List.map_eq_nil_iff.mp h
      rw [this]
  | cons p rest ih =>
      intro sl' h
      match sl', h with
      | q :: rest', h =>
          unfold skeleton at h
          simp only [List.map_cons, List.cons.injEq] at h
          obtain ⟨hq, hrest⟩ := h
          have hkeys : q.1 = p.1 := by
            injection hq
          by_cases hk : p.1 = k
          · rw [List.find?_cons_of_pos _ (by simp [hkeys, hk]),
              List.find?_cons_of_pos _ (by simpa using hk)]
            simpa using hq
          · rw [List.find?_cons_of_neg _ (by simp [hkeys, hk]),
              List.find?_cons_of_neg _ (by simpa using hk)]
            exact ih rest' hrest

/-- In a table with duplicate-free keys the only entry keyed `k` is the one
we know. -/
theorem eq_of_mem_nodupkeys (sl : SlaveTable) (k : String) (a : SlaveInfo)
    (hnodup : (sl.map (fun p => p.1)).Nodup) (hmem : (k, a) ∈ sl) :
    ∀ p ∈ sl, p.1 = k → p = (k, a) := by
  induction sl with
  | nil => intro p hp; simp at hp
  | cons q rest ih =>
      simp only [List.map_cons, List.nodup_cons] at hnodup
      obtain ⟨hq_notin, hrest_nodup⟩ := hnodup
      intro p hp hpk
      rcases List.mem_cons.mp hmem with hqa | hqa
      · rcases List.mem_cons.mp hp with hpq | hpq
        · rw [hpq, ← hqa]
        · exfalso
          apply hq_notin
          rw [← hqa]
          simp only
          rw [← hpk]
          exact List.mem_map.mpr ⟨p, hpq, rfl⟩
      · rcases List.mem_cons.mp hp with hpq | hpq
        · exfalso
          apply hq_notin
          rw [hpq] at hpk
          rw [hpk]
          exact List.mem_map.mpr ⟨(k, a), hqa, rfl⟩
        · exact ih hrest_nodup hqa p hpq hpk

/-- Filtering a key away makes it unfindable. -/
theorem find?_filter_key_ne (sl : SlaveTable) (k : String) :
    (sl.filter (fun p => p.1 ≠ k)).find? (fun p => p.1 = k) = none := by
  rw [List.find?_eq_none]
  intro p hp
  have := List.of_mem_filter hp
  simpa using this



/-- A sweep turn for a different agent preserves everything observable about
`sid`: its table record's identity column, its offline alerts, its warnings. -/
theorem sweepStep_observables_ne (now : Nat) (acc : SweepAcc) (k sid : String)
    (hne : k ≠ sid) :
    Option.map (fun p => ((p : String × SlaveInfo).1, p.2.name, p.2.lastSeen))
        ((sweepStep now acc k).state.slaves.find? (fun p => p.1 = sid)) =
      Option.map (fun p => (p.1, p.2.name, p.2.lastSeen))
        (acc.state.slaves.find? (fun p => p.1 = sid))
    ∧ (∀ nm, Alert.slaveOffline sid nm ∈ (sweepStep now acc k).alerts ↔
        Alert.slaveOffline sid nm ∈ acc.alerts)
    ∧ (∀ svcs, (sid, svcs) ∈ (sweepStep now acc k).warned ↔
        (sid, svcs) ∈ acc.warned) := by
  unfold sweepStep
  cases hfind : acc.state.slaves.find? (fun p => p.1 = k) with
  | none => simp
  | some q =>
      dsimp only
      split_ifs with h1 h2
      · -- stale and evicted
        refine ⟨?_, ?_, ?_⟩
        · dsimp only
          rw [find?_filter_of_imp (fun (p : String × SlaveInfo) => decide (p.1 = sid))
            (fun (p : String × SlaveInfo) => decide (p.1 ≠ k)) _
            (by intro x hx
                simp only [decide_eq_true_eq] at hx ⊢
                rw [hx]
                exact fun h => hne h.symm)]
          exact find?_of_skeleton sid acc.state.slaves _
            (skeleton_redistributeClaimed q.2.services acc.state now)
        · intro nm
          dsimp only
          rw [List.mem_append]
          simp [hne.symm]
        · intro svcs
          dsimp only
          rw [List.mem_append]
          simp [hne.symm]
      · -- stale only
        refine ⟨?_, ?_, ?_⟩
        · exact find?_of_skeleton sid acc.state.slaves _
            (skeleton_redistributeClaimed q.2.services acc.state now)
        · intro nm; rfl
        · intro svcs
          dsimp only
          rw [List.mem_append]
          simp [hne.symm]
      · -- fresh
        exact ⟨rfl, fun nm => Iff.rfl, fun svcs => Iff.rfl⟩

/-- Folding sweep turns over agents other than `sid` preserves the
`sid`-observables. -/
theorem sweep_foldl_observables_ne (now : Nat) (sid : String) :
    ∀ (ks : List String), sid ∉ ks → ∀ (acc : SweepAcc),
      Option.map (fun p => ((p : String × SlaveInfo).1, p.2.name, p.2.lastSeen))
          ((ks.foldl (sweepStep now) acc).state.slaves.find? (fun p => p.1 = sid)) =
        Option.map (fun p => (p.1, p.2.name, p.2.lastSeen))
          (acc.state.slaves.find? (fun p => p.1 = sid))
      ∧ (∀ nm, Alert.slaveOffline sid nm ∈ (ks.foldl (sweepStep now) acc).alerts ↔
          Alert.slaveOffline sid nm ∈ acc.alerts)
      ∧ (∀ svcs, (sid, svcs) ∈ (ks.foldl (sweepStep now) acc).warned ↔
          (sid, svcs) ∈ acc.warned) := by
  intro ks
  induction ks with
  | nil => intro _ acc; exact ⟨rfl, fun _ => Iff.rfl, fun _ => Iff.rfl⟩
  | cons k rest ih =>
      intro hnot acc
      have hk : k ≠ sid := fun h => hnot (h ▸ List.mem_cons_self k rest)
      have hrest : sid ∉ rest := fun h => hnot (List.mem_cons_of_mem _ h)
      rw [List.foldl_cons]
      obtain ⟨e1, e2, e3⟩ := sweepStep_observables_ne now acc k sid hk
      obtain ⟨f1, f2, f3⟩ := ih hrest (sweepStep now acc k)
      refine ⟨f1.trans e1, ?_, ?_⟩
      · intro nm; exact (f2 nm).trans (e2 nm)
      · intro svcs; exact (f3 svcs).trans (e3 svcs)



/-- The sweep turn for `sid` itself: fresh agents are untouched; stale ones
are warned (with their claimed services) and survive; agents silent for more
than 300 s are evicted and alerted. -/
theorem sweepStep_self (now : Nat) (acc : SweepAcc) (sid : String)
    (q : String × SlaveInfo)
    (hfind : acc.state.slaves.find? (fun p => p.1 = sid) = some q) :
    (¬ 60000 < now - q.2.lastSeen → sweepStep now acc sid = acc)
    ∧ (60000 < now - q.2.lastSeen → ¬ 300000 < now - q.2.lastSeen →
        Option.map (fun p => ((p : String × SlaveInfo).1, p.2.name, p.2.lastSeen))
            ((sweepStep now acc sid).state.slaves.find? (fun p => p.1 = sid)) =
          Option.map (fun p => (p.1, p.2.name, p.2.lastSeen))
            (acc.state.slaves.find? (fun p => p.1 = sid))
        ∧ (sweepStep now acc sid).alerts = acc.alerts
        ∧ (sweepStep now acc sid).warned = acc.warned ++ [(sid, q.2.services)])
    ∧ (300000 < now - q.2.lastSeen →
        (sweepStep now acc sid).state.slaves.find? (fun p => p.1 = sid) = none
        ∧ (sweepStep now acc sid).alerts = acc.alerts ++ [.slaveOffline sid q.2.name]
        ∧ (sweepStep now acc sid).warned = acc.warned ++ [(sid, q.2.services)]) := by
  unfold sweepStep
  rw [hfind]
  dsimp only
  refine ⟨?_, ?_, ?_⟩
  · intro h60
    rw [if_neg (by omega)]
  · intro h60 h300
    rw [if_pos (by omega), if_neg (by omega)]
    refine ⟨?_, rfl, rfl⟩
    have h := find?_of_skeleton sid acc.state.slaves _
      (skeleton_redistributeClaimed q.2.services acc.state now)
    rw [hfind] at h
    exact h
  · intro h300
    rw [if_pos (by omega), if_pos (by omega)]
    refine ⟨?_, rfl, rfl⟩
    exact find?_filter_key_ne _ sid



/-- **C7 (amended).** A health sweep evicts an agent and dispatches the
offline alert exactly when its heartbeat age is *strictly greater* than
300 s (at exactly 300 s the agent survives); it warns the agent as stale and
passes its claimed services to redistribution exactly when the age is
strictly greater than 60 s, and a stale-but-not-evicted agent remains in the
registry. -/
theorem claim_C7_health_sweep : ∀ (st : MasterState) (now : Nat) (sid : String) (info : SlaveInfo),
    (st.slaves.map (fun p => p.1)).Nodup → (sid, info) ∈ st.slaves →
    (((checkSlaveHealth st now).state.slaves.find? (fun p => p.1 = sid) = none ↔
        300000 < now - info.lastSeen)
    ∧ ((∃ nm, Alert.slaveOffline sid nm ∈ (checkSlaveHealth st now).alerts) ↔
        300000 < now - info.lastSeen)
    ∧ ((∃ svcs, (sid, svcs) ∈ (checkSlaveHealth st now).warned) ↔
        60000 < now - info.lastSeen)) := by
  intro st now sid info hnodup hmem
  have huniq := eq_of_mem_nodupkeys st.slaves sid info hnodup hmem
  have hfind : st.slaves.find? (fun p => p.1 = sid) = some (sid, info) :=
    find?_eq_of_unique _ _ _ hmem (by simp)
      (fun y hy hPy => huniq y hy (by simpa using hPy))
  have hsidK : sid ∈ st.slaves.map (fun p => p.1) :=
    List.mem_map.mpr ⟨(sid, info), hmem, rfl⟩
  obtain ⟨K1, K2, hK⟩ := List.append_of_mem hsidK
  have hnodupK : (K1 ++ sid :: K2).Nodup := hK ▸ hnodup
  obtain ⟨hn1, hn2, hdisj⟩ := List.nodup_append.mp hnodupK
  have hsid1 : sid ∉ K1 := fun h => hdisj h (List.mem_cons_self _ _)
  have hsid2 : sid ∉ K2 := (List.nodup_cons.mp hn2).1
  unfold checkSlaveHealth
  rw [hK, List.foldl_append, List.foldl_cons]
  obtain ⟨a1, a2, a3⟩ :=
    sweep_foldl_observables_ne now sid K1 hsid1 ⟨st, [], []⟩
  rw [hfind] at a1
  obtain ⟨q1, hq1, hsk⟩ := Option.map_eq_some'.mp a1
  have hq1L : q1.2.lastSeen = info.lastSeen := by
    have := congrArg (fun x => x.2.2) hsk
    simpa using this
  have hq1N : q1.2.name = info.name := by
    have := congrArg (fun x => x.2.1) hsk
    simpa using this
  obtain ⟨s1, s2, s3⟩ :=
    sweepStep_self now (K1.foldl (sweepStep now) ⟨st, [], []⟩) sid q1 hq1
  by_cases h300 : 300000 < now - info.lastSeen
  · obtain ⟨e1, e2, e3⟩ := s3 (by omega)
    obtain ⟨f1, f2, f3⟩ := sweep_foldl_observables_ne now sid K2 hsid2
      (sweepStep now (K1.foldl (sweepStep now) ⟨st, [], []⟩) sid)
    refine ⟨?_, ?_, ?_⟩
    · have : (K2.foldl (sweepStep now)
          (sweepStep now (K1.foldl (sweepStep now) ⟨st, [], []⟩) sid)).state.slaves.find?
          (fun p => p.1 = sid) = none := by
        apply Option.map_eq_none'.mp
        rw [f1, e1]
        rfl
      exact ⟨fun _ => h300, fun _ => this⟩
    · refine ⟨fun _ => h300, fun _ => ⟨q1.2.name, ?_⟩⟩
      rw [f2, e2]
      exact List.mem_append_right _ (by simp)
    · refine ⟨fun _ => by omega, fun _ => ⟨q1.2.services, ?_⟩⟩
      rw [f3, e3]
      exact List.mem_append_right _ (by simp)
  · obtain ⟨f1, f2, f3⟩ := sweep_foldl_observables_ne now sid K2 hsid2
      (sweepStep now (K1.foldl (sweepStep now) ⟨st, [], []⟩) sid)
    by_cases h60 : 60000 < now - info.lastSeen
    · obtain ⟨e1, e2, e3⟩ := s2 (by omega) (by omega)
      refine ⟨?_, ?_, ?_⟩
      · constructor
        · intro hnone
          have hmap := f1.trans e1
          rw [hq1, hnone] at hmap
          simp at hmap
        · intro h; exact absurd h h300
      · constructor
        · intro hex
          obtain ⟨nm, hnm⟩ := hex
          rw [f2 nm, e2] at hnm
          rw [a2 nm] at hnm
          simp at hnm
        · intro h; exact absurd h h300
      · refine ⟨fun _ => h60, fun _ => ⟨q1.2.services, ?_⟩⟩
        rw [f3, e3]
        exact List.mem_append_right _ (by simp)
    · have hstep := s1 (by omega)
      refine ⟨?_, ?_, ?_⟩
      · constructor
        · intro hnone
          rw [hnone, hstep, hq1] at f1
          simp at f1
        · intro h; exact absurd h h300
      · constructor
        · intro hex
          obtain ⟨nm, hnm⟩ := hex
          rw [f2 nm, hstep, a2 nm] at hnm
          simp at hnm
        · intro h; exact absurd h h300
      · constructor
        · intro hex
          obtain ⟨svcs, hsvcs⟩ := hex
          rw [f3 svcs, hstep, a3 svcs] at hsvcs
          simp at hsvcs
        · intro h; exact absurd h h60


/-- Fixture: a master state with one agent last seen at time 0 and no
services. -/
def cexSweepSt : MasterState :=
  { services := [], slaves := [("s1", { name := "A", lastSeen := 0, services := [] })] }

/-- Fixture: that agent's record. -/
def cexInfo : SlaveInfo := { name := "A", lastSeen := 0, services := [] }

/-- Counterexample to C7 as stated: at heartbeat age exactly 300 s (claimed
to trigger eviction and an offline alert) the sweep keeps the agent in the
registry, dispatches no alert, and merely classifies it stale. -/
theorem claim_C7_health_sweep_cex :
    (checkSlaveHealth cexSweepSt 300000).state.slaves.find? (fun p => p.1 = "s1") =
      some ("s1", cexInfo) ∧
    (checkSlaveHealth cexSweepSt 300000).alerts = [] ∧
    (checkSlaveHealth cexSweepSt 300000).warned = [("s1", [])] := by
  refine ⟨?_, ?_, ?_⟩ <;> rfl

/-- Witness for C7 at heartbeat age 400 s: evicted, alerted, warned. -/
theorem claim_C7_health_sweep_witness :
    ((checkSlaveHealth cexSweepSt 400000).state.slaves.find? (fun p => p.1 = "s1") = none ↔
        300000 < 400000 - cexInfo.lastSeen)
    ∧ ((∃ nm, Alert.slaveOffline "s1" nm ∈ (checkSlaveHealth cexSweepSt 400000).alerts) ↔
        300000 < 400000 - cexInfo.lastSeen)
    ∧ ((∃ svcs, ("s1", svcs) ∈ (checkSlaveHealth cexSweepSt 400000).warned) ↔
        60000 < 400000 - cexInfo.lastSeen) :=
  claim_C7_health_sweep cexSweepSt 400000 "s1" cexInfo (by decide) (by decide)

end PingPals
